import Mathlib

/-!
# Verification of the thakur-deploy control plane

A shallow embedding of the control-plane services of the thakur-deploy
repository (security-service, deployment-service, build-service,
project-service, env-service, webhook handler and the projects/builds
routes), together with proofs about the properties the specification
states for them.

Strings manipulated by the JavaScript source are modelled as `List Char`
(and, for the encryption service, as lists of bytes `Fin 256`, since the
source converts between UTF-8 text, raw bytes and hex there).  Database
tables are lists of row structures; a committed state is a value of the
`Db` structure, and every `db.transaction` of the source is a single
function from `Db` to `Db` (one committed state change).  Outcomes of
calls to external services (the Deploy Engine, the HMAC of the configured
webhook secret, the AES-256-GCM cipher) are injected as parameters.
-/

namespace ThakurDeploy

/-! ## JavaScript string primitives -/

/-- JS `String.prototype.trim`: drop leading and trailing whitespace. -/
def jsTrim (s : List Char) : List Char :=
  ((s.dropWhile Char.isWhitespace).reverse.dropWhile Char.isWhitespace).reverse

/-- JS `String.prototype.split('&&')`: split left-to-right on
non-overlapping occurrences of two ampersands. -/
def splitAmpAmp : List Char → List (List Char)
  | [] => [[]]
  | '&' :: '&' :: rest => [] :: splitAmpAmp rest
  | c :: rest =>
    match splitAmpAmp rest with
    | [] => [[c]]
    | seg :: segs => (c :: seg) :: segs

/-- JS `String.prototype.includes(pat)`: does `pat` occur contiguously in
`s`? -/
def containsSeq (pat s : List Char) : Bool :=
  s.tails.any fun t => pat.isPrefixOf t

/-- Left-to-right character scan used by a JS string `===` comparison once
the lengths agree: stops at the first mismatch.  Returns the verdict
together with the number of character comparisons performed. -/
def scanEq : List Char → List Char → Bool × Nat
  | [], [] => (true, 0)
  | [], _ :: _ => (false, 0)
  | _ :: _, [] => (false, 0)
  | a :: as, b :: bs =>
    if a = b then
      let r := scanEq as bs
      (r.1, r.2 + 1)
    else (false, 1)

/-- JS string `===`: compare lengths, then scan left to right until the
first mismatch.  The second component counts the character comparisons
performed, so that timing behaviour of the comparison can be stated. -/
def jsStrEqCount (a b : List Char) : Bool × Nat :=
  if a.length = b.length then scanEq a b else (false, 0)

/-- JS `String.prototype.replace(pat, '')` for a string pattern: remove the
first occurrence of `pat`, scanning left to right; no occurrence leaves the
string unchanged. -/
def replaceOnce (pat : List Char) : List Char → List Char
  | [] => []
  | c :: rest =>
    if pat.isPrefixOf (c :: rest) then List.drop pat.length (c :: rest)
    else c :: replaceOnce pat rest

theorem containsSeq_iff (pat s : List Char) :
    containsSeq pat s = true ↔ pat <:+: s := by
  simp only [containsSeq, List.any_eq_true, List.mem_tails,
    List.isPrefixOf_iff_prefix, List.infix_iff_prefix_suffix]
  exact ⟨fun ⟨t, hs, hp⟩ => ⟨t, hp, hs⟩, fun ⟨t, hp, hs⟩ => ⟨t, hs, hp⟩⟩

theorem scanEq_fst_iff (a b : List Char) : (scanEq a b).1 = true ↔ a = b := by
  induction a generalizing b with
  | nil => cases b <;> simp [scanEq]
  | cons x xs ih =>
    cases b with
    | nil => simp [scanEq]
    | cons y ys =>
      by_cases h : x = y
      · subst h
        simp [scanEq, ih]
      · simp [scanEq, h]

theorem jsStrEqCount_fst_iff (a b : List Char) :
    (jsStrEqCount a b).1 = true ↔ a = b := by
  unfold jsStrEqCount
  by_cases h : a.length = b.length
  · simp [h, scanEq_fst_iff]
  · simp only [if_neg h]
    constructor
    · intro hfalse
      exact absurd hfalse (by simp)
    · intro hab
      exact absurd (congrArg List.length hab) h

/-! ## SecurityService (`security-service.ts`) -/

/-- The dangerous substrings rejected by
`SecurityService.validateBuildCommand`. -/
def dangerousPatterns : List (List Char) :=
  ["rm -rf", "sudo", "wget", "curl", "eval", "|", ";", ">", "<",
   "/etc/passwd", "/etc/shadow", "/bin/sh", "/bin/bash"].map String.toList

/-- The allowed first words of each `&&`-separated segment. -/
def allowedStarts : List (List Char) :=
  ["npm", "yarn", "pnpm", "bun", "echo", "ls"].map String.toList

/-- `SecurityService.validateBuildCommand`: the source throws on failure
and returns `true` on success; we model acceptance as a `Bool`.  A command
is accepted when it contains none of the dangerous patterns and every
`&&`-separated segment, once trimmed, is either empty (skipped) or starts
with an allowed word. -/
def validateBuildCommand (command : List Char) : Bool :=
  (dangerousPatterns.all fun p => !containsSeq p command) &&
  ((splitAmpAmp command).all fun part =>
    let t := jsTrim part
    t.isEmpty || allowedStarts.any fun a => a.isPrefixOf t)

/-- The build-command acceptance predicate exactly as the claim words it:
every non-empty raw segment of the `&&`-split (no trimming) must begin
with an allowed word, and no dangerous pattern may occur anywhere. -/
def claimBuildCommandAccepts (command : List Char) : Bool :=
  (dangerousPatterns.all fun p => !containsSeq p command) &&
  ((splitAmpAmp command).all fun part =>
    part.isEmpty || allowedStarts.any fun a => a.isPrefixOf part)

/-- The corrected acceptance predicate, stated propositionally: no
dangerous pattern occurs, and every segment that is non-empty after
trimming starts, after trimming, with one of the allowed words. -/
def amendedBuildCommandAccepts (command : List Char) : Prop :=
  (∀ p ∈ dangerousPatterns, ¬ p <:+: command) ∧
  ∀ seg ∈ splitAmpAmp command, jsTrim seg ≠ [] →
    ∃ a ∈ allowedStarts, a <+: jsTrim seg

theorem validateBuildCommand_iff (command : List Char) :
    validateBuildCommand command = true ↔ amendedBuildCommandAccepts command := by
  unfold validateBuildCommand amendedBuildCommandAccepts
  simp only [Bool.and_eq_true, List.all_eq_true, Bool.not_eq_true',
    Bool.or_eq_true, List.any_eq_true, List.isPrefixOf_iff_prefix,
    List.isEmpty_iff]
  constructor
  · rintro ⟨hdanger, hsegs⟩
    refine ⟨fun p hp hinf => ?_, fun seg hseg hne => ?_⟩
    · have := hdanger p hp
      rw [← containsSeq_iff] at hinf
      exact absurd hinf (by simp [this])
    · rcases hsegs seg hseg with h | h
      · exact absurd h hne
      · exact h
  · rintro ⟨hdanger, hsegs⟩
    refine ⟨fun p hp => ?_, fun seg hseg => ?_⟩
    · have := hdanger p hp
      rw [← containsSeq_iff] at this
      simpa using this
    · by_cases h : jsTrim seg = []
      · exact Or.inl h
      · exact Or.inr (hsegs seg hseg h)

/-! ## Data model (`db/schema.ts`)

Rows carry the columns the verified operations read or write; identifiers
are natural numbers (the source uses opaque UUIDs), with fresh identifiers
drawn from a `nextId` counter in the database state.  Timestamp columns
are modelled only where the logic branches on them (`completed_at` is
tracked as a flag). -/

/-- `builds.status`: 'pending' | 'building' | 'success' | 'failed'. -/
inductive BuildStatus
  | pending
  | building
  | success
  | failed
deriving DecidableEq

/-- `deployments.status`: 'active' | 'inactive'. -/
inductive DeployStatus
  | active
  | inactive
deriving DecidableEq

/-- `build_logs.level`: 'info' | 'warning' | 'error' | 'success' | 'deploy'. -/
inductive LogLevel
  | info
  | warning
  | error
  | success
  | deploy
deriving DecidableEq

/-- A row of the `projects` table (the columns used by the verified
operations). -/
structure Project where
  id : Nat
  name : List Char
  build_command : List Char
  port : Option Nat
  domain : Option (List Char)
  github_repo_id : Option (List Char)
  github_branch : Option (List Char)
  auto_deploy : Bool
deriving DecidableEq

/-- A row of the `builds` table.  `completed` records whether
`completed_at` is set. -/
structure Build where
  id : Nat
  project_id : Nat
  status : BuildStatus
  commit_sha : Option (List Char)
  completed : Bool
deriving DecidableEq

/-- A row of the `deployments` table. -/
structure Deployment where
  id : Nat
  project_id : Nat
  build_id : Nat
  status : DeployStatus
deriving DecidableEq

/-- A row of the `environment_variables` table (`value` holds the storage
string produced by `EnvService.encrypt`). -/
structure EnvVar where
  id : Nat
  project_id : Nat
  key : List Char
  value : List Char
deriving DecidableEq

/-- A row of the `build_logs` table. -/
structure LogRow where
  id : Nat
  build_id : Nat
  level : LogLevel
  message : List Char
deriving DecidableEq

/-- A committed database state. -/
structure Db where
  projects : List Project
  builds : List Build
  deployments : List Deployment
  envVars : List EnvVar
  buildLogs : List LogRow
  nextId : Nat
deriving DecidableEq

/-! ## DeploymentService (`deployment-service.ts`) -/

/-- The body of the `db.transaction` inside
`DeploymentService.activateBuild`: mark every active deployment of the
project inactive and insert the new active deployment row.  The source
runs both statements in one transaction, so the whole function is one
committed state change. -/
def activateBuildTxn (ds : List Deployment) (nextId projectId buildId : Nat) :
    List Deployment :=
  (ds.map fun d =>
    if d.project_id = projectId ∧ d.status = DeployStatus.active
    then { d with status := DeployStatus.inactive } else d)
  ++ [{ id := nextId, project_id := projectId, build_id := buildId,
        status := DeployStatus.active }]

/-- Number of deployments of `projectId` with `status = active`. -/
def countActive (ds : List Deployment) (projectId : Nat) : Nat :=
  (ds.filter fun d =>
    decide (d.project_id = projectId ∧ d.status = DeployStatus.active)).length

/-- `DeploymentService.activateBuild`.  The Deploy Engine `/activate`
fetch outcome is injected as `engineOk` (`Except.ok` = HTTP ok response;
`Except.error` = non-ok response body or network error).  Returns the
outcome together with the database state as committed after the call:
every `throw` of the source happens before the transaction, so on any
error the state is returned unchanged. -/
def activateBuild (s : Db) (projectId buildId : Nat)
    (engineOk : Except (List Char) Unit) : Except (List Char) Unit × Db :=
  match s.projects.find? (fun p => decide (p.id = projectId)) with
  | none => (Except.error "Project not found".toList, s)
  | some project =>
    match project.port with
    | none => (Except.error "Project has no assigned port".toList, s)
    | some _ =>
      match engineOk with
      | Except.error err =>
        (Except.error ("Deploy Engine activation failed: ".toList ++ err), s)
      | Except.ok _ =>
        (Except.ok (),
         { s with
             deployments := activateBuildTxn s.deployments s.nextId projectId buildId,
             nextId := s.nextId + 1 })

theorem countActive_map_deactivate (ds : List Deployment) (pid : Nat) :
    countActive
      (ds.map fun d =>
        if d.project_id = pid ∧ d.status = DeployStatus.active
        then { d with status := DeployStatus.inactive } else d) pid = 0 := by
  induction ds with
  | nil => simp [countActive]
  | cons d rest ih =>
    simp only [List.map_cons]
    by_cases h : d.project_id = pid ∧ d.status = DeployStatus.active
    · rw [if_pos h]
      simpa [countActive, List.filter_cons] using ih
    · rw [if_neg h]
      simpa [countActive, List.filter_cons, h] using ih

theorem countActive_map_deactivate_other (ds : List Deployment) (pid q : Nat)
    (hq : q ≠ pid) :
    countActive
      (ds.map fun d =>
        if d.project_id = pid ∧ d.status = DeployStatus.active
        then { d with status := DeployStatus.inactive } else d) q =
    countActive ds q := by
  induction ds with
  | nil => simp [countActive]
  | cons d rest ih =>
    simp only [List.map_cons]
    by_cases h : d.project_id = pid ∧ d.status = DeployStatus.active
    · have hdq : ¬ (d.project_id = q ∧ d.status = DeployStatus.active) := by
        rintro ⟨h1, _⟩
        exact hq (h1 ▸ h.1.symm ▸ rfl)
      rw [if_pos h]
      simpa [countActive, List.filter_cons, hdq] using ih
    · rw [if_neg h]
      by_cases hdq : d.project_id = q ∧ d.status = DeployStatus.active
      · simpa [countActive, List.filter_cons, hdq] using ih
      · simpa [countActive, List.filter_cons, hdq] using ih

theorem countActive_append (ds es : List Deployment) (q : Nat) :
    countActive (ds ++ es) q = countActive ds q + countActive es q := by
  simp [countActive, List.filter_append]

theorem activateBuild_error_eq (s : Db) (pid bid : Nat) (err : List Char) :
    ∃ msg, activateBuild s pid bid (Except.error err) = (Except.error msg, s) := by
  unfold activateBuild
  cases hf : s.projects.find? (fun p => decide (p.id = pid)) with
  | none => exact ⟨_, rfl⟩
  | some project =>
    dsimp only
    cases hp : project.port with
    | none => exact ⟨_, rfl⟩
    | some _ => exact ⟨_, rfl⟩

/-- C1: for every project there is at most one deployment with
`status = active` at every committed state, and
`DeploymentService.activateBuild` performs the inactive-to-active
transition for the new deployment in the same database transaction
(`activateBuildTxn`, one committed state change) that sets the prior
active deployments of the project (if any) to inactive: the transaction
leaves the project with exactly one active deployment, leaves every other
project untouched, and therefore preserves the at-most-one-active
invariant. -/
theorem activateBuildTxn_single_active (ds : List Deployment)
    (n pid bid : Nat) :
    countActive (activateBuildTxn ds n pid bid) pid = 1 ∧
    (∀ q, q ≠ pid → countActive (activateBuildTxn ds n pid bid) q =
      countActive ds q) ∧
    (∀ q, countActive ds q ≤ 1 →
      countActive (activateBuildTxn ds n pid bid) q ≤ 1) := by
  have hnew_pid : countActive
      [{ id := n, project_id := pid, build_id := bid,
         status := DeployStatus.active }] pid = 1 := by
    simp [countActive]
  refine ⟨?_, ?_, ?_⟩
  · rw [activateBuildTxn, countActive_append, countActive_map_deactivate,
      hnew_pid]
  · intro q hq
    have hnew_q : countActive
        [{ id := n, project_id := pid, build_id := bid,
           status := DeployStatus.active }] q = 0 := by
      simp [countActive, Ne.symm hq]
    rw [activateBuildTxn, countActive_append,
      countActive_map_deactivate_other ds pid q hq, hnew_q]
    simp
  · intro q hle
    by_cases hq : q = pid
    · subst hq
      rw [activateBuildTxn, countActive_append, countActive_map_deactivate,
        hnew_pid]
    · have hnew_q : countActive
          [{ id := n, project_id := pid, build_id := bid,
             status := DeployStatus.active }] q = 0 := by
        simp [countActive, Ne.symm hq]
      rw [activateBuildTxn, countActive_append,
        countActive_map_deactivate_other ds pid q hq, hnew_q]
      simpa using hle

/-- Witness for C1 at a concrete deployment table. -/
theorem activateBuildTxn_single_active_witness :
    countActive (activateBuildTxn
      [{ id := 0, project_id := 1, build_id := 5, status := DeployStatus.active },
       { id := 1, project_id := 0, build_id := 6, status := DeployStatus.active }]
      9 1 2) 1 = 1 ∧
    countActive (activateBuildTxn
      [{ id := 0, project_id := 1, build_id := 5, status := DeployStatus.active },
       { id := 1, project_id := 0, build_id := 6, status := DeployStatus.active }]
      9 1 2) 0 =
    countActive
      [{ id := 0, project_id := 1, build_id := 5, status := DeployStatus.active },
       { id := 1, project_id := 0, build_id := 6, status := DeployStatus.active }] 0 ∧
    countActive (activateBuildTxn
      [{ id := 0, project_id := 1, build_id := 5, status := DeployStatus.active },
       { id := 1, project_id := 0, build_id := 6, status := DeployStatus.active }]
      9 1 2) 0 ≤ 1 :=
  ⟨(activateBuildTxn_single_active _ 9 1 2).1,
   (activateBuildTxn_single_active _ 9 1 2).2.1 0 (by decide),
   (activateBuildTxn_single_active _ 9 1 2).2.2 0 (by decide)⟩

/-- C10: when the Deploy Engine `/activate` call fails (non-ok response
or network error), `DeploymentService.activateBuild` throws before
performing any database write: the returned committed state is the input
state unchanged (in particular the deployments table, so no new row is
inserted and a prior active deployment stays active), and the outcome is
an error. -/
theorem activateBuild_engine_failure_no_write (s : Db) (pid bid : Nat)
    (err : List Char) :
    (activateBuild s pid bid (Except.error err)).2 = s ∧
    (activateBuild s pid bid (Except.error err)).2.deployments =
      s.deployments ∧
    ∃ msg, (activateBuild s pid bid (Except.error err)).1 =
      Except.error msg := by
  obtain ⟨msg, hmsg⟩ := activateBuild_error_eq s pid bid err
  rw [hmsg]
  exact ⟨rfl, rfl, msg, rfl⟩

/-! ## LogService and BuildService (`log-service.ts`, the current
BullMQ variant of `build-service.ts`) -/

/-- `LogService.persist`: insert a structured log row for a build. -/
def persistLog (s : Db) (buildId : Nat) (level : LogLevel)
    (message : List Char) : Db :=
  { s with
      buildLogs := s.buildLogs ++
        [{ id := s.nextId, build_id := buildId, level := level,
           message := message }],
      nextId := s.nextId + 1 }

/-- The `try`/`catch` part of the auto-activation block of
`BuildService.updateStatus`: on activation success persist a deploy-level
success log, on activation failure persist an error-level failure log; the
failure is caught and never re-thrown. -/
def afterActivation (buildId : Nat)
    (r : Except (List Char) Unit × Db) : Db :=
  match r with
  | (Except.ok _, s3) =>
    persistLog s3 buildId LogLevel.deploy
      "✅ Deployment activated successfully!\n".toList
  | (Except.error e, s3) =>
    persistLog s3 buildId LogLevel.error
      ("❌ Auto-deployment activation failed: ".toList ++ e ++
       "\nPlease try activating manually.\n".toList)

/-- The auto-activation block of `BuildService.updateStatus`: persist a
deploy-level start log, call `DeploymentService.activateBuild` (Deploy
Engine outcome injected as `engineOk`), and handle the outcome. -/
def autoActivate (s : Db) (projectId buildId : Nat)
    (engineOk : Except (List Char) Unit) : Db :=
  afterActivation buildId
    (activateBuild
      (persistLog s buildId LogLevel.deploy
        "🚀 Starting deployment activation...\n".toList)
      projectId buildId engineOk)

/-- `BuildService.updateStatus` (current BullMQ variant): write the
requested status unconditionally (`completed_at` set exactly on terminal
statuses), then, when the new status is `success` and the row existed,
run the auto-activation block; the build row is not touched again. -/
def updateStatus (s : Db) (id : Nat) (status : BuildStatus)
    (engineOk : Except (List Char) Unit) : Db :=
  let updated? := s.builds.find? fun b => decide (b.id = id)
  let s1 : Db := { s with builds := s.builds.map fun b =>
      if b.id = id then
        { b with
            status := status,
            completed := decide (status = BuildStatus.success ∨
              status = BuildStatus.failed) }
      else b }
  match status, updated? with
  | BuildStatus.success, some b => autoActivate s1 b.project_id id engineOk
  | _, _ => s1

/-- The internal `PUT /builds/:id` route: passes the body status straight
to `BuildService.updateStatus` with no guard on the current status. -/
def internalPutBuildStatus (s : Db) (id : Nat) (status : BuildStatus)
    (engineOk : Except (List Char) Unit) : Db :=
  updateStatus s id status engineOk

/-- Status of a build row as read back from the database. -/
def getBuildStatus (s : Db) (id : Nat) : Option BuildStatus :=
  (s.builds.find? fun b => decide (b.id = id)).map Build.status

theorem persistLog_builds (s : Db) (b : Nat) (l : LogLevel) (m : List Char) :
    (persistLog s b l m).builds = s.builds := rfl

theorem activateBuild_snd_builds (s : Db) (pid bid : Nat)
    (e : Except (List Char) Unit) :
    (activateBuild s pid bid e).2.builds = s.builds := by
  unfold activateBuild
  cases hf : s.projects.find? (fun p => decide (p.id = pid)) with
  | none => rfl
  | some project =>
    dsimp only
    cases hp : project.port with
    | none => rfl
    | some _ =>
      dsimp only
      cases e with
      | error err => rfl
      | ok _ => rfl

theorem afterActivation_builds (bid : Nat)
    (r : Except (List Char) Unit × Db) :
    (afterActivation bid r).builds = r.2.builds := by
  rcases r with ⟨res, s3⟩
  cases res <;> rfl

theorem autoActivate_builds (s : Db) (pid bid : Nat)
    (e : Except (List Char) Unit) :
    (autoActivate s pid bid e).builds = s.builds := by
  unfold autoActivate
  rw [afterActivation_builds, activateBuild_snd_builds, persistLog_builds]

theorem updateStatus_builds (s : Db) (id : Nat) (st : BuildStatus)
    (e : Except (List Char) Unit) :
    (updateStatus s id st e).builds = s.builds.map fun b =>
      if b.id = id then
        { b with
            status := st,
            completed := decide (st = BuildStatus.success ∨
              st = BuildStatus.failed) }
      else b := by
  unfold updateStatus
  cases st <;>
    cases hf : s.builds.find? (fun b => decide (b.id = id)) <;>
      simp [autoActivate_builds]

theorem getBuildStatus_updateStatus (s : Db) (id : Nat) (st : BuildStatus)
    (e : Except (List Char) Unit)
    (h : (s.builds.find? fun b => decide (b.id = id)).isSome = true) :
    getBuildStatus (updateStatus s id st e) id = some st := by
  unfold getBuildStatus
  rw [updateStatus_builds]
  rw [List.find?_map]
  obtain ⟨b, hb⟩ := Option.isSome_iff_exists.mp h
  have hcomp : ((fun b : Build => decide (b.id = id)) ∘ fun b : Build =>
      if b.id = id then
        { b with
            status := st,
            completed := decide (st = BuildStatus.success ∨
              st = BuildStatus.failed) }
      else b) = fun b : Build => decide (b.id = id) := by
    funext x
    by_cases hx : x.id = id
    · simp [hx]
    · simp [hx]
  rw [hcomp, hb]
  have hbid : b.id = id := by
    have := List.find?_some hb
    simpa using this
  simp [hbid]

theorem afterActivation_error_log (bid : Nat) (s3 : Db) (e : List Char) :
    ∃ row ∈ (afterActivation bid (Except.error e, s3)).buildLogs,
      row.build_id = bid ∧ row.level = LogLevel.error := by
  refine ⟨{ id := s3.nextId, build_id := bid, level := LogLevel.error,
            message := "❌ Auto-deployment activation failed: ".toList ++ e ++
              "\nPlease try activating manually.\n".toList }, ?_, rfl, rfl⟩
  simp [afterActivation, persistLog]

theorem autoActivate_error_log (s : Db) (pid bid : Nat) (err : List Char) :
    ∃ row ∈ (autoActivate s pid bid (Except.error err)).buildLogs,
      row.build_id = bid ∧ row.level = LogLevel.error := by
  unfold autoActivate
  obtain ⟨msg, hmsg⟩ := activateBuild_error_eq
    (persistLog s bid LogLevel.deploy
      "🚀 Starting deployment activation...\n".toList) pid bid err
  rw [hmsg]
  exact afterActivation_error_log bid _ msg

/-- A database state with one successful build, used by the C7
counterexample. -/
def c7Db : Db :=
  { projects := [],
    builds := [{ id := 0, project_id := 5, status := BuildStatus.success,
                 commit_sha := none, completed := true }],
    deployments := [], envVars := [], buildLogs := [], nextId := 1 }

/-- Counterexample to C7 as stated: a build whose status is the terminal
`success` is moved back to `pending` by a subsequent internal
`PUT /builds/:id` status update — `BuildService.updateStatus` writes the
requested status with no guard on the current one. -/
theorem internalPut_leaves_terminal_counterexample :
    getBuildStatus c7Db 0 = some BuildStatus.success ∧
    getBuildStatus
      (internalPutBuildStatus c7Db 0 BuildStatus.pending (Except.ok ())) 0 =
      some BuildStatus.pending ∧
    BuildStatus.pending ≠ BuildStatus.success := by
  refine ⟨rfl, ?_, by decide⟩
  decide

/-- C7 (amended): `BuildService.updateStatus`, reached by the internal
`PUT /builds/:id` route, writes the requested status unconditionally
(last write wins): for every existing build — terminal or not — the
stored status afterwards is exactly the requested one; no code path
prevents leaving `success` or `failed`. -/
theorem updateStatus_writes_requested_status (s : Db) (id : Nat)
    (st : BuildStatus) (e : Except (List Char) Unit)
    (h : (s.builds.find? fun b => decide (b.id = id)).isSome = true) :
    getBuildStatus (internalPutBuildStatus s id st e) id = some st := by
  unfold internalPutBuildStatus
  exact getBuildStatus_updateStatus s id st e h

/-- Witness for C7 (amended) at a concrete build row. -/
theorem updateStatus_writes_requested_status_witness :
    getBuildStatus
      (internalPutBuildStatus c7Db 0 BuildStatus.building (Except.ok ())) 0 =
      some BuildStatus.building :=
  updateStatus_writes_requested_status c7Db 0 BuildStatus.building
    (Except.ok ()) (by decide)

/-- A database state with one project (with a port) and one build of it,
used by the C6 witness. -/
def c6Db : Db :=
  { projects := [{ id := 5, name := "app".toList,
                   build_command := "npm run build".toList,
                   port := some 8001, domain := none,
                   github_repo_id := some "42".toList,
                   github_branch := some "main".toList,
                   auto_deploy := true }],
    builds := [{ id := 0, project_id := 5, status := BuildStatus.building,
                 commit_sha := none, completed := false }],
    deployments := [], envVars := [], buildLogs := [], nextId := 1 }

/-- C6: when a build transitions to `success` via the internal
`PUT /builds/:id` endpoint, auto-activation is attempted, and if the
activation fails the failure is persisted into that build's log stream as
a `build_logs` row with `level = error`, while the build's status remains
`success` (the activation failure never reverts it). -/
theorem updateStatus_activation_failure_logs (s : Db) (id : Nat)
    (err : List Char)
    (h : (s.builds.find? fun b => decide (b.id = id)).isSome = true) :
    getBuildStatus
      (internalPutBuildStatus s id BuildStatus.success (Except.error err)) id =
      some BuildStatus.success ∧
    ∃ row ∈ (internalPutBuildStatus s id BuildStatus.success
        (Except.error err)).buildLogs,
      row.build_id = id ∧ row.level = LogLevel.error := by
  unfold internalPutBuildStatus
  refine ⟨getBuildStatus_updateStatus s id _ _ h, ?_⟩
  unfold updateStatus
  obtain ⟨b, hb⟩ := Option.isSome_iff_exists.mp h
  rw [hb]
  exact autoActivate_error_log _ b.project_id id err

/-- Witness for C6 at a concrete project/build pair with an injected
Deploy Engine failure. -/
theorem updateStatus_activation_failure_logs_witness :
    getBuildStatus
      (internalPutBuildStatus c6Db 0 BuildStatus.success
        (Except.error "boom".toList)) 0 = some BuildStatus.success ∧
    ∃ row ∈ (internalPutBuildStatus c6Db 0 BuildStatus.success
        (Except.error "boom".toList)).buildLogs,
      row.build_id = 0 ∧ row.level = LogLevel.error :=
  updateStatus_activation_failure_logs c6Db 0 "boom".toList (by decide)

/-! ## Projects routes (`projects.ts`) -/

/-- The empty database state. -/
def emptyDb : Db :=
  { projects := [], builds := [], deployments := [], envVars := [],
    buildLogs := [], nextId := 0 }

/-- `POST /projects`: the handler first runs
`SecurityService.validateBuildCommand` on the body's build command; a
validation throw is caught, answered with status 400 and an error
envelope, and `ProjectService.create` (modelled as an arbitrary state
transformer, since it is never reached on failure) is not invoked. -/
def projectsPost (create : Db → Db) (s : Db) (buildCommand : List Char) :
    Nat × Db :=
  if validateBuildCommand buildCommand then (200, create s) else (400, s)

/-- Counterexample to C4 as stated: the source trims each `&&` segment
before the allow-list check, so the command consisting of a space followed
by `ls` is accepted by `SecurityService.validateBuildCommand` although its
(sole, non-empty) raw segment does not begin with any allowed word, which
the claim's reading rejects. -/
theorem validateBuildCommand_claim_counterexample :
    validateBuildCommand " ls".toList = true ∧
    claimBuildCommandAccepts " ls".toList = false := by
  decide

/-- C4 (amended): build-command validation accepts a command iff it
contains no dangerous pattern and every `&&` segment that is non-empty
after whitespace-trimming begins, after trimming, with one of npm, yarn,
pnpm, bun, echo, ls; on rejection `POST /projects` answers 400 and the
database state is unchanged (no project row created). -/
theorem validateBuildCommand_amended (cmd : List Char) :
    (validateBuildCommand cmd = true ↔ amendedBuildCommandAccepts cmd) ∧
    (validateBuildCommand cmd = false →
      ∀ (create : Db → Db) (s : Db), projectsPost create s cmd = (400, s)) := by
  refine ⟨validateBuildCommand_iff cmd, fun h create s => ?_⟩
  simp [projectsPost, h]

/-- Witness for C4 (amended) at a concrete rejected command. -/
theorem validateBuildCommand_amended_witness :
    (validateBuildCommand "sudo ls".toList = true ↔
      amendedBuildCommandAccepts "sudo ls".toList) ∧
    projectsPost id emptyDb "sudo ls".toList = (400, emptyDb) :=
  ⟨(validateBuildCommand_amended "sudo ls".toList).1,
   (validateBuildCommand_amended "sudo ls".toList).2 (by decide) id emptyDb⟩

/-! ## Webhook signature gate (`github-service.ts`,
`webhook-handler.ts`) -/

/-- `GitHubService.verifyWebhookSignature`: the expected value is
`'sha256=' + hex(hmac-sha256(secret, payload))` — the HMAC of the
configured secret is injected as `hmacHex` — and it is compared to the
received header with the JS string `===` comparison. -/
def verifyWebhookSignature (hmacHex : List Char → List Char)
    (payload sigHeader : List Char) : Bool :=
  (jsStrEqCount ("sha256=".toList ++ hmacHex payload) sigHeader).1

/-- Outcome of the `POST /github/webhook` signature gate. -/
inductive GateResult
  | missing401
  | invalid401
  | proceed
deriving DecidableEq

/-- The signature gate of the `POST /github/webhook` handler: a missing
`x-hub-signature-256` header is answered 401, a non-verifying one is
answered 401, and only a verifying one proceeds to event processing. -/
def githubWebhookGate (hmacHex : List Char → List Char)
    (sigHeader : Option (List Char)) (rawBody : List Char) : GateResult :=
  match sigHeader with
  | none => GateResult.missing401
  | some sig =>
    if verifyWebhookSignature hmacHex rawBody sig then GateResult.proceed
    else GateResult.invalid401

/-- The constant-time requirement the claim states for the webhook
signature comparison: the number of character comparisons performed may
depend only on the lengths of the compared strings, never on where they
first differ. -/
def webhookComparisonConstantTime : Prop :=
  ∀ expected sig sig' : List Char, sig.length = sig'.length →
    (jsStrEqCount expected sig).2 = (jsStrEqCount expected sig').2

/-- Counterexample to C2 as stated: the source compares the signatures
with a plain JS string `===` (`expectedSignature === signature`), which
scans left to right and stops at the first mismatch — two same-length
candidate headers take 9 versus 1 comparison steps against the same
expected value — so the comparison is not constant-time. -/
theorem webhookComparison_not_constant_time :
    ¬ webhookComparisonConstantTime := by
  intro h
  have hx := h "sha256=aa".toList "sha256=ab".toList "Xha256=ab".toList
    (by decide)
  revert hx
  decide

/-- C2 (amended): the webhook handler computes
`'sha256=' + hex(hmac-sha256(secret, raw_body))`, rejects with 401 when
the header is missing or differs from the computed value under ordinary
(short-circuiting) string equality, and only a request whose header equals
the computed value proceeds to event processing. -/
theorem githubWebhookGate_amended (hmacHex : List Char → List Char)
    (rawBody : List Char) :
    githubWebhookGate hmacHex none rawBody = GateResult.missing401 ∧
    (∀ sig, githubWebhookGate hmacHex (some sig) rawBody =
      GateResult.proceed ↔ sig = "sha256=".toList ++ hmacHex rawBody) ∧
    (∀ sig, sig ≠ "sha256=".toList ++ hmacHex rawBody →
      githubWebhookGate hmacHex (some sig) rawBody =
        GateResult.invalid401) := by
  have hv : ∀ sig, verifyWebhookSignature hmacHex rawBody sig = true ↔
      sig = "sha256=".toList ++ hmacHex rawBody := by
    intro sig
    unfold verifyWebhookSignature
    rw [jsStrEqCount_fst_iff]
    exact eq_comm
  refine ⟨rfl, fun sig => ?_, fun sig hne => ?_⟩
  · show (if verifyWebhookSignature hmacHex rawBody sig then
        GateResult.proceed else GateResult.invalid401) = GateResult.proceed ↔
      sig = "sha256=".toList ++ hmacHex rawBody
    by_cases hb : verifyWebhookSignature hmacHex rawBody sig = true
    · rw [if_pos hb]
      exact ⟨fun _ => (hv sig).mp hb, fun _ => rfl⟩
    · rw [if_neg hb]
      exact ⟨fun hp => absurd hp (by decide), fun hs =>
        absurd ((hv sig).mpr hs) hb⟩
  · show (if verifyWebhookSignature hmacHex rawBody sig then
        GateResult.proceed else GateResult.invalid401) = GateResult.invalid401
    rw [if_neg (fun hb => hne ((hv sig).mp hb))]

/-- Witness for C2 (amended) at a concrete HMAC function, body and
headers. -/
theorem githubWebhookGate_amended_witness :
    githubWebhookGate (fun _ => "ab".toList) none "x".toList =
      GateResult.missing401 ∧
    (githubWebhookGate (fun _ => "ab".toList) (some "sha256=ab".toList)
      "x".toList = GateResult.proceed ↔
      "sha256=ab".toList = "sha256=".toList ++ (fun _ => "ab".toList) "x".toList) ∧
    githubWebhookGate (fun _ => "ab".toList) (some "nope".toList)
      "x".toList = GateResult.invalid401 :=
  ⟨(githubWebhookGate_amended (fun _ => "ab".toList) "x".toList).1,
   (githubWebhookGate_amended (fun _ => "ab".toList) "x".toList).2.1
     "sha256=ab".toList,
   (githubWebhookGate_amended (fun _ => "ab".toList) "x".toList).2.2
     "nope".toList (by decide)⟩

/-! ## Project serialization (`projects.ts` GET routes) -/

/-- A project row as serialized into a JSON response object, modelled as
an association list of column name and printed value; `ProjectService.getAll`
selects every column, so `port` is always among the keys. -/
def serializeProjectFull (p : Project) : List (String × String) :=
  [("id", toString p.id),
   ("name", String.mk p.name),
   ("build_command", String.mk p.build_command),
   ("port", match p.port with | some n => toString n | none => "null"),
   ("domain", match p.domain with | some d => String.mk d | none => "null"),
   ("github_repo_id",
     match p.github_repo_id with | some r => String.mk r | none => "null"),
   ("github_branch",
     match p.github_branch with | some b => String.mk b | none => "null"),
   ("auto_deploy", toString p.auto_deploy)]

/-- `GET /projects`: returns `ProjectService.getAll()` — the full rows,
with no field stripped. -/
def getProjectsRoute (s : Db) : List (List (String × String)) :=
  s.projects.map serializeProjectFull

/-- The `const (port, ...safeProject) = project` destructuring of
`GET /projects/:id`: the row without its `port` key. -/
def serializeProjectSafe (p : Project) : List (String × String) :=
  (serializeProjectFull p).filter fun kv => !(kv.1 == "port")

/-- `GET /projects/:id`: looks the project up and returns it without the
`port` key (404 modelled as `none`). -/
def getProjectByIdRoute (s : Db) (pid : Nat) :
    Option (List (String × String)) :=
  (s.projects.find? fun p => decide (p.id = pid)).map serializeProjectSafe

/-- A sample project row used by the C9 counterexample and witness. -/
def c9Project : Project :=
  { id := 7, name := "hello".toList, build_command := "npm run build".toList,
    port := some 8001, domain := none, github_repo_id := none,
    github_branch := some "main".toList, auto_deploy := true }

/-- A database state with one project carrying port 8001. -/
def c9Db : Db :=
  { projects := [c9Project], builds := [], deployments := [], envVars := [],
    buildLogs := [], nextId := 8 }

/-- Counterexample to C9 as stated: `GET /projects` returns the rows of
`ProjectService.getAll()` unmodified, so a returned project object does
carry its `port` field. -/
theorem getProjects_port_counterexample :
    ∃ row ∈ getProjectsRoute c9Db, ("port", "8001") ∈ row := by
  decide

/-- C9 (amended): `GET /projects` returns the array of all projects with
every column included — the `port` field is present on each returned
object — while only `GET /projects/:id` strips the `port` field from its
response. -/
theorem getProjects_port_amended (s : Db) (p : Project)
    (hp : p ∈ s.projects) :
    serializeProjectFull p ∈ getProjectsRoute s ∧
    (∃ kv ∈ serializeProjectFull p, kv.1 = "port") ∧
    (∀ pid row, getProjectByIdRoute s pid = some row →
      ∀ kv ∈ row, kv.1 ≠ "port") := by
  refine ⟨List.mem_map_of_mem _ hp, ?_, ?_⟩
  · exact ⟨("port", match p.port with | some n => toString n | none => "null"),
      by simp [serializeProjectFull], rfl⟩
  · intro pid row hrow kv hkv
    unfold getProjectByIdRoute at hrow
    cases hf : s.projects.find? (fun q => decide (q.id = pid)) with
    | none =>
      rw [hf] at hrow
      simp at hrow
    | some q =>
      rw [hf] at hrow
      have hq : serializeProjectSafe q = row := by simpa using hrow
      subst hq
      have := (List.mem_filter.mp hkv).2
      simpa using this

/-- Witness for C9 (amended) at the sample database. -/
theorem getProjects_port_amended_witness :
    serializeProjectFull c9Project ∈ getProjectsRoute c9Db ∧
    (∃ kv ∈ serializeProjectFull c9Project, kv.1 = "port") ∧
    (∀ pid row, getProjectByIdRoute c9Db pid = some row →
      ∀ kv ∈ row, kv.1 ≠ "port") :=
  getProjects_port_amended c9Db c9Project (by decide)

/-! ## ProjectService.delete (`project-service.ts`) -/

/-- `db.delete(environmentVariables).where(project_id = pid)`. -/
def deleteEnvVarsStep (s : Db) (pid : Nat) : Db :=
  { s with envVars := s.envVars.filter fun v => !(decide (v.project_id = pid)) }

/-- `db.delete(deployments).where(project_id = pid)`. -/
def deleteDeploymentsStep (s : Db) (pid : Nat) : Db :=
  { s with deployments :=
      s.deployments.filter fun d => !(decide (d.project_id = pid)) }

/-- `db.delete(builds).where(project_id = pid)`; the `build_logs` rows of
the deleted builds disappear with them through the `onDelete: 'cascade'`
foreign key of the schema. -/
def deleteBuildsStep (s : Db) (pid : Nat) : Db :=
  { s with
      builds := s.builds.filter fun b => !(decide (b.project_id = pid)),
      buildLogs := s.buildLogs.filter fun r =>
        !(((s.builds.filter fun b => decide (b.project_id = pid)).map
            Build.id).contains r.build_id) }

/-- `db.delete(projects).where(id = pid)`. -/
def deleteProjectStep (s : Db) (pid : Nat) : Db :=
  { s with projects := s.projects.filter fun p => !(decide (p.id = pid)) }

/-- `ProjectService.delete`: a missing project returns null with no
deletes; otherwise, after the best-effort Deploy-Engine cleanup call
(whose failure is ignored and which performs no database write), the four
delete statements run sequentially, each as its own committed statement —
there is no surrounding transaction.  `failAt` injects which statement
throws (0 = env vars, 1 = deployments, 2 = builds, 3 = project row); a
throw leaves the earlier deletions committed.  After the project-row
delete, an error is surfaced when zero rows were deleted. -/
def projectDelete (s : Db) (pid : Nat) (failAt : Option Nat) :
    Except (List Char) Unit × Db :=
  match s.projects.find? (fun p => decide (p.id = pid)) with
  | none => (Except.ok (), s)
  | some _ =>
    if failAt = some 0 then (Except.error "db failure".toList, s) else
    if failAt = some 1 then
      (Except.error "db failure".toList, deleteEnvVarsStep s pid) else
    if failAt = some 2 then
      (Except.error "db failure".toList,
       deleteDeploymentsStep (deleteEnvVarsStep s pid) pid) else
    if failAt = some 3 then
      (Except.error "db failure".toList,
       deleteBuildsStep (deleteDeploymentsStep (deleteEnvVarsStep s pid) pid)
         pid) else
    if ((deleteBuildsStep (deleteDeploymentsStep (deleteEnvVarsStep s pid)
          pid) pid).projects.filter fun p => decide (p.id = pid)).length = 0
    then
      (Except.error "Failed to delete project from database".toList,
       deleteProjectStep (deleteBuildsStep (deleteDeploymentsStep
         (deleteEnvVarsStep s pid) pid) pid) pid)
    else
      (Except.ok (),
       deleteProjectStep (deleteBuildsStep (deleteDeploymentsStep
         (deleteEnvVarsStep s pid) pid) pid) pid)

/-- Modelled from the spec (project deletion, §4.1 step 3 and §5: "cascade
delete env vars → deployments → logs → builds → project" "in a single
transaction"): the whole cascade is one atomic committed state change —
all-or-nothing, so a failing transaction leaves the state unchanged. -/
def specProjectDeleteAtomic (s : Db) (pid : Nat) (txnFails : Bool) :
    Except (List Char) Unit × Db :=
  match s.projects.find? (fun p => decide (p.id = pid)) with
  | none => (Except.ok (), s)
  | some _ =>
    if txnFails then (Except.error "db failure".toList, s)
    else
      (Except.ok (),
       deleteProjectStep (deleteBuildsStep (deleteDeploymentsStep
         (deleteEnvVarsStep s pid) pid) pid) pid)

/-- A database state with one project owning one env var, used by the C5
counterexample and witness. -/
def c5Db : Db :=
  { projects := [{ id := 1, name := "p".toList,
                   build_command := "npm run build".toList,
                   port := some 8001, domain := none,
                   github_repo_id := none,
                   github_branch := some "main".toList,
                   auto_deploy := true }],
    builds := [], deployments := [],
    envVars := [{ id := 0, project_id := 1, key := "K".toList,
                  value := "V".toList }],
    buildLogs := [], nextId := 2 }

/-- Counterexample to C5 as stated: the deletes are separate sequential
statements, so a failure at the project-row statement leaves a committed
state in which the env vars are already gone but the project row is still
present — neither the unchanged state nor the fully-deleted state a
single transaction would allow. -/
theorem projectDelete_not_atomic_counterexample :
    (projectDelete c5Db 1 (some 3)).2.envVars = [] ∧
    (projectDelete c5Db 1 (some 3)).2.projects = c5Db.projects ∧
    c5Db.envVars ≠ [] ∧
    ¬ ((projectDelete c5Db 1 (some 3)).2 = c5Db ∨
       (projectDelete c5Db 1 (some 3)).2 =
         (specProjectDeleteAtomic c5Db 1 false).2) := by
  decide

/-- C5 (amended): project deletion deletes env vars, deployments, builds
(whose logs go with them via the FK cascade) and the project row as four
sequential statements after the best-effort Deploy-Engine cleanup call —
not in a single transaction, so a failure partway leaves the earlier
deletions committed — and surfaces an error if the project row was not
deleted; on the failure-free path the final state is the one the atomic
spec cascade produces. -/
theorem projectDelete_amended (s : Db) (pid : Nat)
    (h : (s.projects.find? fun p => decide (p.id = pid)).isSome = true) :
    projectDelete s pid none =
      (Except.ok (), (specProjectDeleteAtomic s pid false).2) ∧
    (projectDelete s pid (some 3)).2 =
      deleteBuildsStep (deleteDeploymentsStep (deleteEnvVarsStep s pid) pid)
        pid ∧
    (projectDelete s pid (some 3)).2.projects = s.projects ∧
    (∃ msg, (projectDelete s pid (some 3)).1 = Except.error msg) := by
  obtain ⟨p, hp⟩ := Option.isSome_iff_exists.mp h
  have hmem : p ∈ s.projects := List.mem_of_find?_eq_some hp
  have hpid : p.id = pid := by simpa using List.find?_some hp
  have hnonzero :
      ¬ ((deleteBuildsStep (deleteDeploymentsStep (deleteEnvVarsStep s pid)
          pid) pid).projects.filter fun q => decide (q.id = pid)).length = 0 := by
    have hmem2 : p ∈ (deleteBuildsStep (deleteDeploymentsStep
        (deleteEnvVarsStep s pid) pid) pid).projects := hmem
    have : p ∈ (deleteBuildsStep (deleteDeploymentsStep
        (deleteEnvVarsStep s pid) pid) pid).projects.filter
          fun q => decide (q.id = pid) :=
      List.mem_filter.mpr ⟨hmem2, by simpa using hpid⟩
    intro hlen
    rw [List.length_eq_zero] at hlen
    rw [hlen] at this
    exact absurd this (List.not_mem_nil p)
  unfold projectDelete
  rw [hp]
  refine ⟨?_, ?_, ?_, ?_⟩
  · simp only [specProjectDeleteAtomic]
    rw [hp]
    simp [hnonzero]
  · simp
  · simp [deleteBuildsStep, deleteDeploymentsStep, deleteEnvVarsStep]
  · refine ⟨"db failure".toList, ?_⟩
    simp

/-- Witness for C5 (amended) at the sample database. -/
theorem projectDelete_amended_witness :
    projectDelete c5Db 1 none =
      (Except.ok (), (specProjectDeleteAtomic c5Db 1 false).2) ∧
    (projectDelete c5Db 1 (some 3)).2 =
      deleteBuildsStep (deleteDeploymentsStep (deleteEnvVarsStep c5Db 1) 1)
        1 ∧
    (projectDelete c5Db 1 (some 3)).2.projects = c5Db.projects ∧
    (∃ msg, (projectDelete c5Db 1 (some 3)).1 = Except.error msg) :=
  projectDelete_amended c5Db 1 (by decide)

/-! ## EnvService encryption (`env-service.ts`)

The service works on UTF-8 text, raw bytes and their hex encodings; we
model all of them as byte lists (`Fin 256`), identifying a string with its
UTF-8 bytes — the claim quantifies over plaintexts of valid UTF-8 bytes,
and every character of a storage string is an ASCII hex digit or the
colon.  The AES-256-GCM primitive under the configured key is injected as
a `GcmCipher` with its two defining properties: decryption with the
correct tag restores the plaintext, and tags (16 bytes in GCM) are
non-empty. -/

/-- A byte. -/
abbrev Byte := Fin 256

/-- ASCII code of the lower-case hex digit of a nibble (Node's
`toString('hex')` emits lower case). -/
def hexDigitOf (d : Fin 16) : Byte :=
  if d.val < 10 then ⟨48 + d.val, by have := d.isLt; omega⟩
  else ⟨87 + d.val, by have := d.isLt; omega⟩

/-- Hex encoding of one byte: high nibble, then low nibble. -/
def byteToHex (b : Byte) : List Byte :=
  [hexDigitOf ⟨b.val / 16, by have := b.isLt; omega⟩,
   hexDigitOf ⟨b.val % 16, by omega⟩]

/-- `Buffer.prototype.toString('hex')`. -/
def hexEncode (bs : List Byte) : List Byte :=
  (bs.map byteToHex).flatten

/-- Value of one hex digit (Node accepts both cases). -/
def hexVal? (c : Byte) : Option (Fin 16) :=
  if h1 : 48 ≤ c.val ∧ c.val ≤ 57 then some ⟨c.val - 48, by omega⟩
  else if h2 : 97 ≤ c.val ∧ c.val ≤ 102 then some ⟨c.val - 87, by omega⟩
  else if h3 : 65 ≤ c.val ∧ c.val ≤ 70 then some ⟨c.val - 55, by omega⟩
  else none

/-- One byte from two hex digits. -/
def hexPair? (hi lo : Byte) : Option Byte :=
  match hexVal? hi, hexVal? lo with
  | some hv, some lv =>
    some ⟨hv.val * 16 + lv.val, by have := hv.isLt; have := lv.isLt; omega⟩
  | _, _ => none

/-- `Buffer.from(s, 'hex')`: Node decodes pairwise and stops (returning
the bytes so far) at the first invalid pair or odd trailing digit. -/
def hexDecodeNode : List Byte → List Byte
  | hi :: lo :: rest =>
    (match hexPair? hi lo with
     | some b => b :: hexDecodeNode rest
     | none => [])
  | _ => []

/-- JS `String.prototype.split(':')` over byte strings (58 = ':'). -/
def splitColon : List Byte → List (List Byte)
  | [] => [[]]
  | c :: rest =>
    if c.val = 58 then [] :: splitColon rest
    else
      match splitColon rest with
      | [] => [[c]]
      | seg :: segs => (c :: seg) :: segs

/-- The injected AES-256-GCM primitive under the configured
`ENCRYPTION_KEY`: `enc` returns (ciphertext, auth tag); `dec` verifies the
tag and restores the plaintext, failing (`none` — the source's decipher
throw) otherwise. -/
structure GcmCipher where
  enc : List Byte → List Byte → List Byte × List Byte
  dec : List Byte → List Byte → List Byte → Option (List Byte)
  dec_enc : ∀ nonce plain,
    dec nonce (enc nonce plain).1 (enc nonce plain).2 = some plain
  tag_ne_nil : ∀ nonce plain, (enc nonce plain).2 ≠ []

/-- `EnvService.encrypt`: storage string
`hex(nonce) ':' hex(tag) ':' hex(ciphertext)` (the source draws the
12-byte nonce from `randomBytes(12)`; it is a parameter here). -/
def encrypt (g : GcmCipher) (nonce text : List Byte) : List Byte :=
  hexEncode nonce ++ (58 : Byte) :: hexEncode (g.enc nonce text).2 ++
    (58 : Byte) :: hexEncode (g.enc nonce text).1

/-- `EnvService.decrypt`: a value without a colon is returned as-is
(legacy plain text); otherwise the first three colon-separated parts are
taken as nonce, tag and ciphertext hex (a missing or empty nonce or tag
part also returns the value as-is), and a decipher failure is caught,
returning the stored value unchanged. -/
def decrypt (g : GcmCipher) (text : List Byte) : List Byte :=
  if text.any fun c => decide (c.val = 58) then
    match splitColon text with
    | ivHex :: tagHex :: encHex :: _ =>
      if ivHex.isEmpty || tagHex.isEmpty then text
      else
        match g.dec (hexDecodeNode ivHex) (hexDecodeNode encHex)
            (hexDecodeNode tagHex) with
        | some plain => plain
        | none => text
    | _ => text
  else text

theorem hexVal?_hexDigitOf (d : Fin 16) : hexVal? (hexDigitOf d) = some d := by
  have hd := d.isLt
  unfold hexDigitOf hexVal?
  by_cases h : d.val < 10
  · rw [if_pos h]
    rw [dif_pos (by exact ⟨by simp; try omega, by simp; try omega⟩)]
    exact congrArg some (Fin.ext (by simp))
  · rw [if_neg h]
    rw [dif_neg (by simp; omega)]
    rw [dif_pos (by exact ⟨by simp; try omega, by simp; try omega⟩)]
    exact congrArg some (Fin.ext (by simp))

theorem hexPair?_of_digits (hv lv : Fin 16) :
    hexPair? (hexDigitOf hv) (hexDigitOf lv) =
      some ⟨hv.val * 16 + lv.val, by have := hv.isLt; have := lv.isLt; omega⟩ := by
  unfold hexPair?
  rw [hexVal?_hexDigitOf, hexVal?_hexDigitOf]

theorem hexDecodeNode_byteToHex (b : Byte) (rest : List Byte) :
    hexDecodeNode (byteToHex b ++ rest) = b :: hexDecodeNode rest := by
  have hb := b.isLt
  show hexDecodeNode
    (hexDigitOf ⟨b.val / 16, by omega⟩ ::
      hexDigitOf ⟨b.val % 16, by omega⟩ :: rest) = b :: hexDecodeNode rest
  conv_lhs => rw [hexDecodeNode]
  rw [hexPair?_of_digits]
  show (⟨(⟨b.val / 16, by omega⟩ : Fin 16).val * 16 +
      (⟨b.val % 16, by omega⟩ : Fin 16).val, by omega⟩ : Byte) ::
    hexDecodeNode rest = b :: hexDecodeNode rest
  congr 1
  apply Fin.ext
  show b.val / 16 * 16 + b.val % 16 = b.val
  omega

theorem hexDecodeNode_hexEncode (bs : List Byte) :
    hexDecodeNode (hexEncode bs) = bs := by
  induction bs with
  | nil => rfl
  | cons b rest ih =>
    have : hexEncode (b :: rest) = byteToHex b ++ hexEncode rest := by
      simp [hexEncode]
    rw [this, hexDecodeNode_byteToHex, ih]

theorem hexDigitOf_ne_colon (d : Fin 16) : (hexDigitOf d).val ≠ 58 := by
  have hd := d.isLt
  unfold hexDigitOf
  split
  · simp
    omega
  · simp
    omega

theorem hexEncode_no_colon (bs : List Byte) :
    ∀ c ∈ hexEncode bs, c.val ≠ 58 := by
  intro c hc
  simp only [hexEncode, List.mem_flatten, List.mem_map] at hc
  obtain ⟨l, ⟨b, _, hb⟩, hcl⟩ := hc
  subst hb
  simp only [byteToHex, List.mem_cons, List.mem_singleton,
    List.not_mem_nil] at hcl
  rcases hcl with h | h | h
  · subst h
    exact hexDigitOf_ne_colon _
  · subst h
    exact hexDigitOf_ne_colon _
  · exact h.elim

theorem splitColon_colonFree (l : List Byte) (h : ∀ c ∈ l, c.val ≠ 58) :
    splitColon l = [l] := by
  induction l with
  | nil => rfl
  | cons c rest ih =>
    conv_lhs => rw [splitColon]
    rw [if_neg (h c (List.mem_cons_self c rest))]
    rw [ih fun x hx => h x (List.mem_cons_of_mem c hx)]

theorem splitColon_append (a r : List Byte) (h : ∀ c ∈ a, c.val ≠ 58) :
    splitColon (a ++ (58 : Byte) :: r) = a :: splitColon r := by
  induction a with
  | nil =>
    show splitColon ((58 : Byte) :: r) = [] :: splitColon r
    conv_lhs => rw [splitColon]
    rw [if_pos (by decide)]
  | cons c rest ih =>
    have hc : c.val ≠ 58 := h c (List.mem_cons_self c rest)
    have hrest := ih fun x hx => h x (List.mem_cons_of_mem c hx)
    show splitColon (c :: (rest ++ (58 : Byte) :: r)) =
      (c :: rest) :: splitColon r
    conv_lhs => rw [splitColon]
    rw [if_neg hc, hrest]

/-- C8: for every plaintext `v` (its valid UTF-8 bytes) and every 12-byte
nonce, `decrypt (encrypt v) = v`, where `encrypt` produces the storage
string `hex(nonce):hex(tag):hex(ciphertext)` under AES-256-GCM and
`decrypt` restores the plaintext on tag verification; and a stored value
without a colon is returned unchanged as the literal fallback. -/
theorem envService_roundtrip (g : GcmCipher) (nonce v : List Byte)
    (h : nonce.length = 12) :
    decrypt g (encrypt g nonce v) = v ∧
    ∀ s : List Byte, (s.any fun c => decide (c.val = 58)) = false →
      decrypt g s = s := by
  constructor
  · unfold encrypt decrypt
    have hany : ((hexEncode nonce ++ (58 : Byte) ::
        hexEncode (g.enc nonce v).2 ++ (58 : Byte) ::
        hexEncode (g.enc nonce v).1).any fun c => decide (c.val = 58)) =
        true := by
      rw [List.any_eq_true]
      refine ⟨(58 : Byte), ?_, by decide⟩
      exact List.mem_append_right _ (List.mem_cons_self _ _)
    rw [if_pos hany]
    have hsplit : splitColon (hexEncode nonce ++ (58 : Byte) ::
        hexEncode (g.enc nonce v).2 ++ (58 : Byte) ::
        hexEncode (g.enc nonce v).1) =
        hexEncode nonce :: hexEncode (g.enc nonce v).2 ::
          [hexEncode (g.enc nonce v).1] := by
      have h1 := splitColon_append (hexEncode nonce)
        (hexEncode (g.enc nonce v).2 ++ (58 : Byte) ::
          hexEncode (g.enc nonce v).1) (hexEncode_no_colon nonce)
      have h2 := splitColon_append (hexEncode (g.enc nonce v).2)
        (hexEncode (g.enc nonce v).1)
        (hexEncode_no_colon (g.enc nonce v).2)
      have h3 := splitColon_colonFree (hexEncode (g.enc nonce v).1)
        (hexEncode_no_colon (g.enc nonce v).1)
      simp only [List.cons_append, List.append_assoc]
      rw [h1, h2, h3]
    rw [hsplit]
    have hiv : (hexEncode nonce).isEmpty = false := by
      cases hn : nonce with
      | nil => rw [hn] at h; simp at h
      | cons b bs => simp [hexEncode, byteToHex]
    have htag : (hexEncode (g.enc nonce v).2).isEmpty = false := by
      cases ht : (g.enc nonce v).2 with
      | nil => exact absurd ht (g.tag_ne_nil nonce v)
      | cons b bs => simp [hexEncode, byteToHex]
    simp [hiv, htag, hexDecodeNode_hexEncode, g.dec_enc]
  · intro s hs
    unfold decrypt
    rw [if_neg (by simp [hs])]

/-- A concrete lawful cipher: identity ciphertext, one-byte tag. -/
def plainCipher : GcmCipher where
  enc := fun _ p => (p, [0])
  dec := fun _ ct tag => if tag = [(0 : Byte)] then some ct else none
  dec_enc := by intro n p; simp
  tag_ne_nil := by intro n p; simp

/-- Witness for C8 at a concrete cipher, nonce and plaintext. -/
theorem envService_roundtrip_witness :
    decrypt plainCipher
      (encrypt plainCipher [0, 1, 2, 3, 4, 5, 6, 7, 8, 9, 10, 11]
        [104, 105]) = [104, 105] ∧
    ∀ s : List Byte, (s.any fun c => decide (c.val = 58)) = false →
      decrypt plainCipher s = s :=
  envService_roundtrip plainCipher [0, 1, 2, 3, 4, 5, 6, 7, 8, 9, 10, 11]
    [104, 105] (by decide)

/-! ## Webhook push handler (`webhook-handler.ts`, push branch) -/

/-- The fields of a GitHub push payload the handler reads. -/
structure PushPayload where
  ref : List Char
  repoId : List Char
  installationId : Option (List Char)
  after : Option (List Char)
  headCommitMessage : Option (List Char)
deriving DecidableEq

/-- `const branch = ref.replace('refs/heads/', '')`. -/
def branchOf (p : PushPayload) : List Char :=
  replaceOnce "refs/heads/".toList p.ref

/-- The projects query of the push handler:
`github_repo_id = repo.id AND github_branch = branch` (SQL equality, so a
NULL column matches nothing). -/
def matchesPush (p : PushPayload) (pr : Project) : Bool :=
  decide (pr.github_repo_id = some p.repoId) &&
  decide (pr.github_branch = some (branchOf p))

/-- The idempotency query: does a build with this
`(project_id, commit_sha)` exist? -/
def existsBuildFor (s : Db) (pid : Nat) (sha : List Char) : Bool :=
  s.builds.any fun b => decide (b.project_id = pid ∧ b.commit_sha = some sha)

/-- Number of builds with this `(project_id, commit_sha)`. -/
def countBuildsFor (s : Db) (pid : Nat) (sha : List Char) : Nat :=
  (s.builds.filter fun b =>
    decide (b.project_id = pid ∧ b.commit_sha = some sha)).length

/-- One iteration of the push handler's project loop: skip when
`auto_deploy` is false; when the commit sha is truthy (present and
non-empty) and a build with the same `(project_id, commit_sha)` already
exists in the live database, skip; otherwise `BuildService.create` inserts
a pending build carrying the sha (its enqueue and queue-status logging
create no build rows and are not modelled). -/
def handlePushStep (after : Option (List Char)) (s : Db) (pr : Project) :
    Db :=
  if !pr.auto_deploy then s
  else if (match after with
           | some sha => !sha.isEmpty && existsBuildFor s pr.id sha
           | none => false) = true then s
  else
    { s with
        builds := s.builds ++
          [{ id := s.nextId, project_id := pr.id,
             status := BuildStatus.pending, commit_sha := after,
             completed := false }],
        nextId := s.nextId + 1 }

/-- The push branch of the webhook handler: return early (no state
change) when the payload has no installation id; otherwise loop over the
projects matching `(repo_id, branch)`, with the idempotency check run
against the live database state at each iteration. -/
def handlePush (s : Db) (p : PushPayload) : Db :=
  match p.installationId with
  | none => s
  | some _ =>
    (s.projects.filter (matchesPush p)).foldl (handlePushStep p.after) s

theorem existsBuildFor_false_iff (s : Db) (pid : Nat) (sha : List Char) :
    existsBuildFor s pid sha = false ↔ countBuildsFor s pid sha = 0 := by
  unfold existsBuildFor countBuildsFor
  rw [List.length_eq_zero, List.any_eq_false, List.filter_eq_nil_iff]

theorem handlePushStep_projects (a : Option (List Char)) (s : Db)
    (pr : Project) : (handlePushStep a s pr).projects = s.projects := by
  unfold handlePushStep
  split
  · rfl
  · split
    · rfl
    · rfl

theorem foldl_handlePushStep_projects (a : Option (List Char))
    (l : List Project) (s : Db) :
    (l.foldl (handlePushStep a) s).projects = s.projects := by
  induction l generalizing s with
  | nil => rfl
  | cons pr rest ih =>
    rw [List.foldl_cons, ih, handlePushStep_projects]

theorem existsBuildFor_step_mono (a : Option (List Char)) (s : Db)
    (pr : Project) (pid : Nat) (sha : List Char)
    (h : existsBuildFor s pid sha = true) :
    existsBuildFor (handlePushStep a s pr) pid sha = true := by
  unfold handlePushStep
  split
  · exact h
  · split
    · exact h
    · unfold existsBuildFor at h ⊢
      simp only [List.any_append, h, Bool.true_or]

theorem existsBuildFor_foldl_mono (a : Option (List Char))
    (l : List Project) (s : Db) (pid : Nat) (sha : List Char)
    (h : existsBuildFor s pid sha = true) :
    existsBuildFor (l.foldl (handlePushStep a) s) pid sha = true := by
  induction l generalizing s with
  | nil => exact h
  | cons pr rest ih =>
    rw [List.foldl_cons]
    exact ih _ (existsBuildFor_step_mono a s pr pid sha h)

theorem existsBuildFor_step_self (sha : List Char)
    (hsha : sha.isEmpty = false) (s : Db) (pr : Project)
    (hauto : pr.auto_deploy = true) :
    existsBuildFor (handlePushStep (some sha) s pr) pr.id sha = true := by
  by_cases hex : existsBuildFor s pr.id sha = true
  · exact existsBuildFor_step_mono (some sha) s pr pr.id sha hex
  · have hexf : existsBuildFor s pr.id sha = false := by
      revert hex
      cases existsBuildFor s pr.id sha <;> simp
    have hstep : handlePushStep (some sha) s pr =
        { s with
            builds := s.builds ++
              [{ id := s.nextId, project_id := pr.id,
                 status := BuildStatus.pending, commit_sha := some sha,
                 completed := false }],
            nextId := s.nextId + 1 } := by
      simp [handlePushStep, hauto, hexf, hsha]
    rw [hstep]
    unfold existsBuildFor
    simp [List.any_append]

theorem existsBuildFor_foldl_ensures (sha : List Char)
    (hsha : sha.isEmpty = false) (l : List Project) (s : Db) :
    ∀ pr ∈ l, pr.auto_deploy = true →
      existsBuildFor (l.foldl (handlePushStep (some sha)) s) pr.id sha =
        true := by
  induction l generalizing s with
  | nil =>
    intro pr hpr
    exact absurd hpr (List.not_mem_nil pr)
  | cons pr0 rest ih =>
    intro pr hpr hauto
    rw [List.foldl_cons]
    rcases List.mem_cons.mp hpr with h | h
    · subst h
      exact existsBuildFor_foldl_mono (some sha) rest _ pr.id sha
        (existsBuildFor_step_self sha hsha s pr hauto)
    · exact ih _ pr h hauto

theorem handlePushStep_noop (sha : List Char) (hsha : sha.isEmpty = false)
    (s : Db) (pr : Project)
    (h : pr.auto_deploy = true → existsBuildFor s pr.id sha = true) :
    handlePushStep (some sha) s pr = s := by
  cases hauto : pr.auto_deploy with
  | false => simp [handlePushStep, hauto]
  | true => simp [handlePushStep, hauto, h hauto, hsha]

theorem foldl_handlePushStep_noop (sha : List Char)
    (hsha : sha.isEmpty = false) (l : List Project) (s : Db)
    (h : ∀ pr ∈ l, pr.auto_deploy = true →
      existsBuildFor s pr.id sha = true) :
    l.foldl (handlePushStep (some sha)) s = s := by
  induction l with
  | nil => rfl
  | cons pr0 rest ih =>
    rw [List.foldl_cons,
      handlePushStep_noop sha hsha s pr0 (h pr0 (List.mem_cons_self pr0 rest)),
      ih fun pr hpr => h pr (List.mem_cons_of_mem pr0 hpr)]

theorem handlePushStep_cnt (sha : List Char) (hsha : sha.isEmpty = false)
    (s : Db) (pr : Project) (pid : Nat) :
    countBuildsFor (handlePushStep (some sha) s pr) pid sha =
      countBuildsFor s pid sha +
      (if pr.id = pid ∧ pr.auto_deploy = true ∧
          existsBuildFor s pr.id sha = false then 1 else 0) := by
  by_cases hauto : pr.auto_deploy = true
  · by_cases hex : existsBuildFor s pr.id sha = true
    · have hstep : handlePushStep (some sha) s pr = s := by
        simp [handlePushStep, hauto, hex, hsha]
      rw [hstep, if_neg (by rintro ⟨_, _, h3⟩; rw [h3] at hex; cases hex)]
      exact (Nat.add_zero _).symm
    · have hexf : existsBuildFor s pr.id sha = false := by
        revert hex
        cases existsBuildFor s pr.id sha <;> simp
      have hstep : handlePushStep (some sha) s pr =
          { s with
              builds := s.builds ++
                [{ id := s.nextId, project_id := pr.id,
                   status := BuildStatus.pending, commit_sha := some sha,
                   completed := false }],
              nextId := s.nextId + 1 } := by
        simp [handlePushStep, hauto, hexf, hsha]
      rw [hstep]
      unfold countBuildsFor
      simp only [List.filter_append, List.length_append]
      by_cases hid : pr.id = pid
      · rw [if_pos ⟨hid, hauto, hexf⟩]
        simp [hid]
      · rw [if_neg (by rintro ⟨h1, _⟩; exact hid h1)]
        simp [hid]
  · have hauto' : pr.auto_deploy = false := by
      revert hauto
      cases pr.auto_deploy <;> simp
    have hstep : handlePushStep (some sha) s pr = s := by
      simp [handlePushStep, hauto']
    rw [hstep, if_neg (by rintro ⟨_, h2, _⟩; exact hauto h2)]
    exact (Nat.add_zero _).symm

theorem cnt_foldl_other (sha : List Char) (hsha : sha.isEmpty = false)
    (l : List Project) (s : Db) (pid : Nat)
    (h : ∀ pr ∈ l, pr.id ≠ pid) :
    countBuildsFor (l.foldl (handlePushStep (some sha)) s) pid sha =
      countBuildsFor s pid sha := by
  induction l generalizing s with
  | nil => rfl
  | cons pr0 rest ih =>
    have hcond : ¬(pr0.id = pid ∧ pr0.auto_deploy = true ∧
        existsBuildFor s pr0.id sha = false) := by
      rintro ⟨h1, _⟩
      exact h pr0 (List.mem_cons_self pr0 rest) h1
    rw [List.foldl_cons,
      ih _ fun pr hpr => h pr (List.mem_cons_of_mem pr0 hpr),
      handlePushStep_cnt sha hsha s pr0 pid, if_neg hcond]
    exact Nat.add_zero _

theorem cnt_foldl (sha : List Char) (hsha : sha.isEmpty = false)
    (l : List Project) (s : Db) (pid : Nat)
    (hnodup : (l.map Project.id).Nodup) :
    countBuildsFor (l.foldl (handlePushStep (some sha)) s) pid sha =
      countBuildsFor s pid sha +
      (if (∃ pr ∈ l, pr.id = pid ∧ pr.auto_deploy = true) ∧
          countBuildsFor s pid sha = 0 then 1 else 0) := by
  induction l generalizing s with
  | nil => simp
  | cons pr0 rest ih =>
    have hnodup' : (rest.map Project.id).Nodup :=
      (List.nodup_cons.mp (by simpa using hnodup)).2
    have hhead : pr0.id ∉ rest.map Project.id :=
      (List.nodup_cons.mp (by simpa using hnodup)).1
    rw [List.foldl_cons]
    by_cases hid : pr0.id = pid
    · subst hid
      have htail : ∀ pr ∈ rest, pr.id ≠ pr0.id := by
        intro pr hpr heq
        exact hhead (heq ▸ List.mem_map_of_mem Project.id hpr)
      by_cases hauto : pr0.auto_deploy = true
      · by_cases hcnt : countBuildsFor s pr0.id sha = 0
        · have hex : existsBuildFor s pr0.id sha = false :=
            (existsBuildFor_false_iff s pr0.id sha).mpr hcnt
          rw [cnt_foldl_other sha hsha rest _ pr0.id htail,
            handlePushStep_cnt sha hsha s pr0 pr0.id,
            if_pos ⟨rfl, hauto, hex⟩,
            if_pos ⟨⟨pr0, List.mem_cons_self pr0 rest, rfl, hauto⟩, hcnt⟩]
        · have hex : existsBuildFor s pr0.id sha = true := by
            cases hb : existsBuildFor s pr0.id sha with
            | true => rfl
            | false =>
              exact absurd ((existsBuildFor_false_iff s pr0.id sha).mp hb)
                hcnt
          rw [handlePushStep_noop sha hsha s pr0 fun _ => hex,
            cnt_foldl_other sha hsha rest s pr0.id htail,
            if_neg (by rintro ⟨_, h0⟩; exact hcnt h0)]
          exact (Nat.add_zero _).symm
      · have hauto' : pr0.auto_deploy = false := by
          revert hauto
          cases pr0.auto_deploy <;> simp
        have hstep : handlePushStep (some sha) s pr0 = s := by
          simp [handlePushStep, hauto']
        have hcond : ¬((∃ pr ∈ pr0 :: rest, pr.id = pr0.id ∧
            pr.auto_deploy = true) ∧ countBuildsFor s pr0.id sha = 0) := by
          rintro ⟨⟨pr, hpr, hid2, hauto2⟩, _⟩
          rcases List.mem_cons.mp hpr with h | h
          · subst h
            exact hauto hauto2
          · exact htail pr h hid2
        rw [hstep, cnt_foldl_other sha hsha rest s pr0.id htail,
          if_neg hcond]
        exact (Nat.add_zero _).symm
    · have hstepcnt :
          countBuildsFor (handlePushStep (some sha) s pr0) pid sha =
            countBuildsFor s pid sha := by
        rw [handlePushStep_cnt sha hsha s pr0 pid,
          if_neg (by rintro ⟨h1, _⟩; exact hid h1)]
        exact Nat.add_zero _
      rw [ih _ hnodup', hstepcnt]
      congr 1
      refine if_congr (and_congr ?_ Iff.rfl) rfl rfl
      constructor
      · rintro ⟨pr, hpr, hid2, hauto2⟩
        exact ⟨pr, List.mem_cons_of_mem pr0 hpr, hid2, hauto2⟩
      · rintro ⟨pr, hpr, hid2, hauto2⟩
        rcases List.mem_cons.mp hpr with h | h
        · subst h
          exact absurd hid2 hid
        · exact ⟨pr, h, hid2, hauto2⟩

/-- C3: processing a push webhook creates a build for a matching project
(same `repo_id` and branch) only when `auto_deploy` is true and no build
with the same `(project_id, commit_sha)` exists — the count of such
builds grows by exactly one in that case and is unchanged otherwise — and
delivering the same payload a second time leaves the state exactly as
after the first delivery (zero additional builds), for a non-null
non-empty commit sha. -/
theorem webhookPush_idempotent (s : Db) (p : PushPayload) (sha : List Char)
    (hafter : p.after = some sha) (hsha : sha.isEmpty = false)
    (hnodup : (s.projects.map Project.id).Nodup) :
    handlePush (handlePush s p) p = handlePush s p ∧
    ∀ pid, countBuildsFor (handlePush s p) pid sha =
      countBuildsFor s pid sha +
      (if p.installationId ≠ none ∧
          (∃ pr ∈ s.projects, pr.id = pid ∧ matchesPush p pr = true ∧
            pr.auto_deploy = true) ∧
          countBuildsFor s pid sha = 0 then 1 else 0) := by
  rcases hinst : p.installationId with _ | i
  · have hdef : ∀ t : Db, handlePush t p = t := by
      intro t
      unfold handlePush
      rw [hinst]
    constructor
    · rw [hdef, hdef]
    · intro pid
      rw [hdef, if_neg (by rintro ⟨hne, _⟩; exact hne rfl)]
      exact (Nat.add_zero _).symm
  · have hdef : ∀ t : Db, handlePush t p =
        (t.projects.filter (matchesPush p)).foldl
          (handlePushStep (some sha)) t := by
      intro t
      unfold handlePush
      rw [hinst, hafter]
    have hpush : handlePush s p =
        (s.projects.filter (matchesPush p)).foldl
          (handlePushStep (some sha)) s := hdef s
    have hprojects : (handlePush s p).projects = s.projects := by
      rw [hpush]
      exact foldl_handlePushStep_projects (some sha) _ s
    constructor
    · have hpush2 : handlePush (handlePush s p) p =
          (s.projects.filter (matchesPush p)).foldl
            (handlePushStep (some sha)) (handlePush s p) := by
        rw [hdef (handlePush s p), hprojects]
      rw [hpush2]
      refine foldl_handlePushStep_noop sha hsha _ _ fun pr hpr hauto => ?_
      rw [hpush]
      exact existsBuildFor_foldl_ensures sha hsha _ s pr hpr hauto
    · intro pid
      rw [hpush]
      have hnodupf :
          (((s.projects.filter (matchesPush p)).map Project.id)).Nodup :=
        hnodup.sublist ((List.filter_sublist s.projects).map Project.id)
      rw [cnt_foldl sha hsha _ s pid hnodupf]
      congr 1
      refine if_congr ?_ rfl rfl
      constructor
      · rintro ⟨⟨pr, hpr, hid2, hauto2⟩, hc⟩
        have hm := List.mem_filter.mp hpr
        have hne : (some i : Option (List Char)) ≠ none := fun hfalse =>
          Option.noConfusion hfalse
        exact ⟨hne, ⟨pr, hm.1, hid2, hm.2, hauto2⟩, hc⟩
      · rintro ⟨_, ⟨pr, hpr, hid2, hmatch, hauto2⟩, hc⟩
        exact ⟨⟨pr, List.mem_filter.mpr ⟨hpr, hmatch⟩, hid2, hauto2⟩, hc⟩

/-- The sample project matched by the C3 sample payload. -/
def c3Project : Project :=
  { id := 4, name := "web".toList, build_command := "npm run build".toList,
    port := some 8002, domain := none,
    github_repo_id := some "42".toList,
    github_branch := some "main".toList, auto_deploy := true }

/-- A database state with one matching project and no builds. -/
def c3Db : Db :=
  { projects := [c3Project], builds := [], deployments := [], envVars := [],
    buildLogs := [], nextId := 10 }

/-- The sample signed push payload. -/
def c3Payload : PushPayload :=
  { ref := "refs/heads/main".toList, repoId := "42".toList,
    installationId := some "7".toList, after := some "abc".toList,
    headCommitMessage := some "x".toList }

/-- Witness for C3 at a concrete database and payload. -/
theorem webhookPush_idempotent_witness :
    handlePush (handlePush c3Db c3Payload) c3Payload =
      handlePush c3Db c3Payload ∧
    ∀ pid, countBuildsFor (handlePush c3Db c3Payload) pid "abc".toList =
      countBuildsFor c3Db pid "abc".toList +
      (if c3Payload.installationId ≠ none ∧
          (∃ pr ∈ c3Db.projects, pr.id = pid ∧
            matchesPush c3Payload pr = true ∧ pr.auto_deploy = true) ∧
          countBuildsFor c3Db pid "abc".toList = 0 then 1 else 0) :=
  webhookPush_idempotent c3Db c3Payload "abc".toList rfl rfl (by decide)

end ThakurDeploy
